import Mathlib

/-!
Shallow embedding of the XSRN settlement core:
the Merkle generator service (src/services/merkle-generator.ts),
the MerkleDistributor and EpochManager contracts, the XsrnTreasury
distribution, and the AttestationRegistry bond/challenge state machine.

Keccak-256 is modelled as a free constructor algebra: each syntactically
distinct pre-image family gets its own constructor, so two hashes are equal
exactly when their pre-images are (the standard collision-free model of a
cryptographic hash).  The byte-order comparison used for commutative pair
hashing is modelled by the derived structural order; all structural
properties proved here are insensitive to the particular total order, as
long as tree construction and verification use the same one (they do, in
the source and in the model).
-/

namespace XSRN

/-- Model of a 32-byte keccak-256 digest.
  hZero       = ethers.ZeroHash / bytes32(0)
  hData a m   = keccak256(abi.encode(address a, uint256 m))
  hPacked a m = keccak256(abi.encodePacked(address a, uint256 m))
  hWrap h     = keccak256(h) of a single 32-byte word (StandardMerkleTree
                leaf double-hash)
  hPair a b   = keccak256(a || b) of two concatenated 32-byte words
  hAttId s c t n = keccak256(abi.encodePacked(address s, bytes32 c,
                uint256 t, uint256 n)), the attestation id derivation -/
inductive Hash where
  | hZero : Hash
  | hData (addr : Nat) (amt : Nat) : Hash
  | hPacked (addr : Nat) (amt : Nat) : Hash
  | hWrap (h : Hash) : Hash
  | hPair (a b : Hash) : Hash
  | hAttId (sender : Nat) (contentHash : Hash) (timestamp blockNumber : Nat) : Hash
deriving DecidableEq, Repr, Inhabited

/-- Constructor rank, for comparing digests of different shapes. -/
def hashRank : Hash → Nat
  | .hZero => 0
  | .hData _ _ => 1
  | .hPacked _ _ => 2
  | .hWrap _ => 3
  | .hPair _ _ => 4
  | .hAttId _ _ _ _ => 5

/-- A total order on modelled digests, standing in for the byte order on
real 32-byte digests.  Any fixed total order is a faithful model here:
the source compares digests only to pick the commutative pair-hash
orientation and to sort leaves, and every property proved below holds
for every total order used consistently on both the build and the verify
side. -/
def hashCompare : Hash → Hash → Ordering
  | .hZero, .hZero => .eq
  | .hData a1 a2, .hData b1 b2 => (compare a1 b1).then (compare a2 b2)
  | .hPacked a1 a2, .hPacked b1 b2 => (compare a1 b1).then (compare a2 b2)
  | .hWrap x, .hWrap y => hashCompare x y
  | .hPair x1 x2, .hPair y1 y2 =>
      (hashCompare x1 y1).then (hashCompare x2 y2)
  | .hAttId s1 c1 t1 n1, .hAttId s2 c2 t2 n2 =>
      ((compare s1 s2).then (hashCompare c1 c2)).then
        ((compare t1 t2).then (compare n1 n2))
  | x, y => compare (hashRank x) (hashRank y)

/-- Strict byte-order comparison of digests (`computedHash < proofElement`
in the TS verifier, `compareBytes` in the OZ merkle-tree library). -/
def hashLt (a b : Hash) : Bool := hashCompare a b == Ordering.lt

/-- Non-strict comparison, used for the ascending stable sort of leaves. -/
def hashLe (a b : Hash) : Bool := !(hashCompare a b == Ordering.gt)

/-- Commutative pair hash: keccak of the two children concatenated in
ascending byte order.  Used identically by the OZ merkle-tree builder,
the TS verifier and Solidity MerkleProof. -/
def hashPair (a b : Hash) : Hash :=
  if hashLt a b then Hash.hPair a b else Hash.hPair b a

/-- Pointwise update of a keyed mapping (Solidity mapping write). -/
def upd {α β : Type} [DecidableEq α] (f : α → β) (a : α) (v : β) : α → β :=
  fun x => if x = a then v else f x

/-! ### OpenZeppelin Solidity MerkleProof (used by MerkleDistributor) -/

namespace MerkleProof

/-- `processProof` from OZ MerkleProof.sol: fold the leaf with each proof
element using the commutative pair hash. -/
def processProof (proof : List Hash) (leaf : Hash) : Hash :=
  proof.foldl (fun acc p => hashPair acc p) leaf

/-- `MerkleProof.verify(proof, root, leaf)`. -/
def verify (proof : List Hash) (root : Hash) (leaf : Hash) : Bool :=
  processProof proof leaf == root

end MerkleProof

/-! ### MerkleDistributor (contracts/XsrnSessionManager.sol, second
contract in the file) -/

namespace MerkleDistributor

/-- Error outcomes of the distributor's reverts, in source order. -/
inductive DistError where
  | alreadyClaimed
  | rootNotSet
  | invalidProof
  | invalidRoot
  | lengthMismatch
deriving DecidableEq, Repr

/-- Distributor storage: epoch roots, claim flags, cumulative totals.
Mappings are total functions with the Solidity zero default. -/
structure DistState where
  /-- epochMerkleRoots : (epochId, token) → root -/
  roots : Nat × Nat → Hash
  /-- claimed : (epochId, token, account) → bool -/
  claimed : Nat × Nat × Nat → Bool
  /-- totalClaimed : (account, token) → amount -/
  totalClaimed : Nat × Nat → Nat

/-- `setMerkleRoot(epochId, token, merkleRoot)`: rejects only the zero
root, otherwise overwrites unconditionally. -/
def setMerkleRoot (s : DistState) (epochId token : Nat) (root : Hash) :
    Except DistError DistState :=
  if root = Hash.hZero then .error .invalidRoot
  else .ok { s with roots := upd s.roots (epochId, token) root }

/-- `claim(epochId, token, amount, proof)` called by `sender`.
Returns the updated state and the amount transferred from treasury. -/
def claim (s : DistState) (sender epochId token amount : Nat)
    (proof : List Hash) : Except DistError (DistState × Nat) :=
  if s.claimed (epochId, token, sender) then .error .alreadyClaimed
  else
    let root := s.roots (epochId, token)
    if root = Hash.hZero then .error .rootNotSet
    else
      let leaf := Hash.hPacked sender amount
      if MerkleProof.verify proof root leaf then
        .ok ({ s with
                claimed := upd s.claimed (epochId, token, sender) true
                totalClaimed := upd s.totalClaimed (sender, token)
                  (s.totalClaimed (sender, token) + amount) },
             amount)
      else .error .invalidProof

/-- `canClaim(epochId, token, account, amount, proof)`: read-only claim
eligibility check. -/
def canClaim (s : DistState) (epochId token account amount : Nat)
    (proof : List Hash) : Bool :=
  if s.claimed (epochId, token, account) then false
  else
    let root := s.roots (epochId, token)
    if root = Hash.hZero then false
    else MerkleProof.verify proof root (Hash.hPacked account amount)

/-- One loop iteration of `claimMultiple`: ineligible entries are skipped
with `continue`, eligible entries mark the claim flag and add to the
accumulated total. -/
def claimMultipleLoop (s : DistState) (sender token : Nat) :
    List (Nat × Nat × List Hash) → DistState × Nat
  | [] => (s, 0)
  | (epochId, amount, proof) :: rest =>
    if s.claimed (epochId, token, sender) then
      claimMultipleLoop s sender token rest
    else if s.roots (epochId, token) = Hash.hZero then
      claimMultipleLoop s sender token rest
    else if !(MerkleProof.verify proof (s.roots (epochId, token))
              (Hash.hPacked sender amount)) then
      claimMultipleLoop s sender token rest
    else
      let s' := { s with claimed := upd s.claimed (epochId, token, sender) true }
      let r := claimMultipleLoop s' sender token rest
      (r.1, amount + r.2)

/-- `claimMultiple(epochIds, token, amounts, merkleProofs)` called by
`sender`: checks the two length requirements, then runs the best-effort
loop; a single transfer of the accumulated total happens iff it is
positive. Returns the updated state and the transferred total. -/
def claimMultiple (s : DistState) (sender token : Nat)
    (epochIds amounts : List Nat) (proofs : List (List Hash)) :
    Except DistError (DistState × Nat) :=
  if epochIds.length ≠ amounts.length then .error .lengthMismatch
  else if epochIds.length ≠ proofs.length then .error .lengthMismatch
  else
    let r :=
      claimMultipleLoop s sender token (epochIds.zip (amounts.zip proofs))
    if r.2 > 0 then
      .ok ({ r.1 with totalClaimed := upd r.1.totalClaimed (sender, token)
                        (r.1.totalClaimed (sender, token) + r.2) }, r.2)
    else
      .ok (r.1, 0)

end MerkleDistributor

/-! ### MerkleGenerator service (src/services/merkle-generator.ts), built
on the OZ JS StandardMerkleTree (@openzeppelin/merkle-tree).  The library
hashes each `[address, amount]` value twice
(`keccak256(keccak256(abi.encode(address,uint256)))`), sorts the leaf
hashes ascending (stably), lays the tree out as a flat array of size
`2n - 1` with the root at index 0, and extracts sibling proofs by index
arithmetic. -/

namespace MerkleGenerator

/-- RewardEntry from src/types.ts. Addresses and amounts as naturals. -/
structure RewardEntry where
  address : Nat
  amount : Nat
  epochId : Nat
deriving DecidableEq, Repr

/-- StandardMerkleTree standard leaf hash: the double keccak. -/
def standardLeafHash (addr amt : Nat) : Hash :=
  Hash.hWrap (Hash.hData addr amt)

/-- Stable insertion of an element into a sorted list: the new element
goes after all existing elements that compare less-or-equal. -/
def insertSorted {α : Type} (le : α → α → Bool) (x : α) : List α → List α
  | [] => [x]
  | y :: ys => if le y x then y :: insertSorted le x ys else x :: y :: ys

/-- Stable ascending sort (models the stable JS `Array.prototype.sort`
with the library's `compareBytes` comparator). -/
def sortByLe {α : Type} (le : α → α → Bool) (l : List α) : List α :=
  l.foldl (fun acc x => insertSorted le x acc) []

/-- Place the sorted leaf hashes at tree positions size-1, size-2, ... -/
def placeLeaves (tree : List Hash) (leaves : List Hash) (pos : Nat) :
    List Hash :=
  match leaves with
  | [] => tree
  | h :: t => placeLeaves (tree.set pos h) t (pos - 1)

/-- Fill internal node k-1, then k-2, ..., then 0, each as the commutative
pair hash of its children at indices 2j+1 and 2j+2 (the descending loop of
`makeMerkleTree`). -/
def buildLoop (tree : List Hash) : Nat → List Hash
  | 0 => tree
  | k + 1 =>
    let j := k
    buildLoop
      (tree.set j (hashPair (tree.getD (2*j+1) Hash.hZero)
                            (tree.getD (2*j+2) Hash.hZero))) k

/-- `makeMerkleTree(leaves)`: the flat array tree of size 2n-1. -/
def makeMerkleTree (leaves : List Hash) : List Hash :=
  let n := leaves.length
  let size := 2 * n - 1
  buildLoop (placeLeaves (List.replicate size Hash.hZero) leaves (size - 1))
    (n - 1)

/-- `getProof(tree, index)`: collect the sibling at each level while
walking to the root (sibling of i is i+1 for odd i, i-1 for even i;
parent of i is (i-1)/2).  `fuel` bounds the while loop; any fuel at least
the tree size is enough since the index at least halves each step. -/
def getTreeProof (tree : List Hash) : Nat → Nat → List Hash
  | 0, _ => []
  | _ + 1, 0 => []
  | fuel + 1, i + 1 =>
    let sib := if (i + 1) % 2 = 1 then i + 2 else i
    tree.getD sib Hash.hZero :: getTreeProof tree fuel (i / 2)

/-- MerkleTreeResult from src/types: root, proofs keyed by address,
original entries. -/
structure MerkleTreeResult where
  root : Hash
  proofs : List (Nat × List Hash)
  entries : List RewardEntry
deriving Repr

/-- `MerkleGenerator.generate(rewards)`: empty input yields the zero root;
otherwise build the StandardMerkleTree over the double-hashed leaves and
record a proof for every entry, keyed by its address. -/
def generate (rewards : List RewardEntry) : MerkleTreeResult :=
  if rewards.length = 0 then ⟨Hash.hZero, [], []⟩
  else
    let indexed := rewards.enum.map
      (fun p => (p.1, p.2, standardLeafHash p.2.address p.2.amount))
    let sorted := sortByLe (fun a b => hashLe a.2.2 b.2.2) indexed
    let size := 2 * rewards.length - 1
    let tree := makeMerkleTree (sorted.map (fun p => p.2.2))
    let proofs := rewards.enum.map (fun p =>
      let leafIndex := sorted.findIdx (fun q => q.1 == p.1)
      (p.2.address, getTreeProof tree size (size - 1 - leafIndex)))
    ⟨tree.headD Hash.hZero, proofs, rewards⟩

/-- `MerkleGenerator.getProof(result, address)`. -/
def getProof (result : MerkleTreeResult) (address : Nat) :
    Option (List Hash) :=
  (result.proofs.find? (fun p => p.1 == address)).map (fun p => p.2)

/-- `MerkleGenerator.verify(root, address, amount, proof)`: recreates the
leaf as a SINGLE keccak of the abi encoding, then folds the proof with
the order-sensitive commutative combination from the TS source. -/
def verify (root : Hash) (address amount : Nat) (proof : List Hash) :
    Bool :=
  let leaf := Hash.hData address amount
  let computed := proof.foldl
    (fun computedHash proofElement =>
      if hashLt computedHash proofElement then
        Hash.hPair computedHash proofElement
      else
        Hash.hPair proofElement computedHash)
    leaf
  computed == root

/-- The three reward entries of the repository test suite
(`mockRewards` in the MerkleGenerator tests; amounts are
parseEther(100), parseEther(200), parseEther(50)). -/
def mockRewards : List RewardEntry :=
  [ ⟨0x1111111111111111111111111111111111111111, 100000000000000000000, 1⟩,
    ⟨0x2222222222222222222222222222222222222222, 200000000000000000000, 1⟩,
    ⟨0x3333333333333333333333333333333333333333, 50000000000000000000, 1⟩ ]

/-- Verification as the generator would need it for its own proofs to
check out: same fold, but with the leaf double-hashed exactly as
StandardMerkleTree hashes it when building the tree. -/
def verifyAgainstStandardLeaf (root : Hash) (address amount : Nat)
    (proof : List Hash) : Bool :=
  MerkleProof.processProof proof (standardLeafHash address amount) == root

end MerkleGenerator

/-! ### EpochManager (contracts/ReceiptRegistry.sol, second contract in
the file) -/

namespace EpochManager

/-- Epoch record. -/
structure Epoch where
  id : Nat
  startTime : Nat
  endTime : Nat
  merkleRoot : Hash
  finalized : Bool
  totalRewards : Nat
deriving DecidableEq, Repr

/-- Solidity zero-initialized epoch record (unwritten mapping slot). -/
def defaultEpoch : Epoch := ⟨0, 0, 0, Hash.hZero, false, 0⟩

/-- Error outcomes of the EpochManager reverts. -/
inductive EMError where
  | epochNotEnded
  | currentEpochNotFinalized
  | invalidEpoch
  | alreadyFinalized
  | invalidRoot
  | durationTooShort
  | durationTooLong
deriving DecidableEq, Repr

/-- EpochManager storage. -/
structure EMState where
  epochDuration : Nat
  currentEpochId : Nat
  epochs : Nat → Epoch

/-- MIN_EPOCH_DURATION = 1 days. -/
def minEpochDuration : Nat := 86400

/-- MAX_EPOCH_DURATION = 30 days. -/
def maxEpochDuration : Nat := 30 * 86400

/-- Constructor: epoch 1 opens at deployment time with the default 7-day
duration. -/
def initState (now : Nat) : EMState :=
  let dur := 7 * 86400
  { epochDuration := dur
    currentEpochId := 1
    epochs := upd (fun _ => defaultEpoch) 1
      ⟨1, now, now + dur, Hash.hZero, false, 0⟩ }

/-- `canAdvanceEpoch()`. -/
def canAdvanceEpoch (s : EMState) (now : Nat) : Bool :=
  now ≥ (s.epochs s.currentEpochId).endTime

/-- `advanceEpoch()`: requires the current epoch ended and finalized, then
opens the next epoch record. -/
def advanceEpoch (s : EMState) (now : Nat) : Except EMError EMState :=
  if !canAdvanceEpoch s now then .error .epochNotEnded
  else if !(s.epochs s.currentEpochId).finalized then
    .error .currentEpochNotFinalized
  else
    let nid := s.currentEpochId + 1
    .ok { s with
            currentEpochId := nid
            epochs := upd s.epochs nid
              ⟨nid, now, now + s.epochDuration, Hash.hZero, false, 0⟩ }

/-- `finalizeEpoch(epochId, merkleRoot, totalRewards)`. -/
def finalizeEpoch (s : EMState) (epochId : Nat) (merkleRoot : Hash)
    (totalRewards : Nat) : Except EMError EMState :=
  if epochId > s.currentEpochId then .error .invalidEpoch
  else if (s.epochs epochId).finalized then .error .alreadyFinalized
  else if merkleRoot = Hash.hZero then .error .invalidRoot
  else
    let e := s.epochs epochId
    let e' := { e with
                  merkleRoot := merkleRoot
                  totalRewards := totalRewards
                  finalized := true }
    .ok { s with epochs := upd s.epochs epochId e' }

/-- `setEpochDuration(duration)`, bounded to the 1 to 30 day range. -/
def setEpochDuration (s : EMState) (duration : Nat) :
    Except EMError EMState :=
  if duration < minEpochDuration then .error .durationTooShort
  else if duration > maxEpochDuration then .error .durationTooLong
  else .ok { s with epochDuration := duration }

/-- One successful state-mutating call of the EpochManager. -/
inductive Step : EMState → EMState → Prop
  | advance (s : EMState) (now : Nat) (s' : EMState)
      (h : advanceEpoch s now = .ok s') : Step s s'
  | finalize (s : EMState) (epochId : Nat) (root : Hash) (tr : Nat)
      (s' : EMState) (h : finalizeEpoch s epochId root tr = .ok s') :
      Step s s'
  | setDuration (s : EMState) (d : Nat) (s' : EMState)
      (h : setEpochDuration s d = .ok s') : Step s s'

/-- States reachable from a freshly constructed manager by successful
calls (failed calls revert and leave the state untouched). -/
inductive Reachable : EMState → Prop
  | init (now : Nat) : Reachable (initState now)
  | step {s s' : EMState} : Reachable s → Step s s' → Reachable s'

end EpochManager

/-! ### XsrnTreasury 40/30/20/10 distribution
(contracts/XsrnFeeSplitter.sol, second contract in the file) -/

namespace XsrnTreasury

/-- Distribution recipients of the treasury. -/
structure TreasuryState where
  watcher : Nat
  operator : Nat
  publicGoods : Nat
  securityReserve : Nat
deriving DecidableEq, Repr

/-- `_transfer` skips zero amounts; an executed transfer is a
(recipient, amount) pair. -/
def transferIfPositive (recipient amount : Nat) : List (Nat × Nat) :=
  if amount = 0 then [] else [(recipient, amount)]

/-- `distributeRewards(token)` with the token balance read as
`totalBalance`: requires a positive balance, computes the first three
shares by basis points and gives the security reserve the remainder.
Returns the executed transfers. -/
def distributeRewards (st : TreasuryState) (totalBalance : Nat) :
    Except String (List (Nat × Nat)) :=
  if totalBalance = 0 then .error "No funds to distribute"
  else
    let watcherAmount := totalBalance * 4000 / 10000
    let operatorAmount := totalBalance * 3000 / 10000
    let publicGoodsAmount := totalBalance * 2000 / 10000
    let securityReserveAmount :=
      totalBalance - watcherAmount - operatorAmount - publicGoodsAmount
    .ok (transferIfPositive st.watcher watcherAmount ++
         transferIfPositive st.operator operatorAmount ++
         transferIfPositive st.publicGoods publicGoodsAmount ++
         transferIfPositive st.securityReserve securityReserveAmount)

end XsrnTreasury

/-- Modelled from the spec (section 4.1 Fixed-Point Splitter): the
repository has no standalone `split` routine - only its two inlined
instances, the treasury 40/30/20/10 distribution and the slash split in
`arbitrate`.  Per the spec, every share except the last is
`floor(total * ratio / 10000)` and the last share absorbs the remainder.
Helper carrying the running sum of the shares already emitted. -/
def splitGo (total : Nat) (acc : Nat) : List Nat → List Nat
  | [] => []
  | [_] => [total - acc]
  | r :: rest =>
    total * r / 10000 :: splitGo total (acc + total * r / 10000) rest

/-- Modelled from the spec (section 4.1): `split(total, ratiosBps)`. -/
def split (total : Nat) (ratios : List Nat) : List Nat :=
  splitGo total 0 ratios

/-! ### AttestationRegistry (contracts/AttestationRegistry.sol) -/

namespace AttestationRegistry

/-- Attestation status enum, in declaration order. -/
inductive AttestationStatus where
  | Pending
  | Validated
  | Challenged
  | Slashed
  | Withdrawn
deriving DecidableEq, Repr, Inhabited

/-- Attestation record. -/
structure Attestation where
  attester : Nat
  contentHash : Hash
  bondAmount : Nat
  timestamp : Nat
  challengeDeadline : Nat
  status : AttestationStatus
  challenger : Nat
  challengeReason : Hash
deriving DecidableEq, Repr

/-- Solidity zero-initialized attestation (unwritten mapping slot):
status is the first enum member, Pending. -/
def defaultAttestation : Attestation :=
  ⟨0, Hash.hZero, 0, 0, 0, AttestationStatus.Pending, 0, Hash.hZero⟩

/-- Error outcomes of the registry reverts. -/
inductive ARError where
  | invalidContentHash
  | attestationExists
  | bondTooLow
  | notFound
  | notChallengeable
  | challengePeriodEnded
  | selfChallenge
  | notInChallenge
  | notPending
  | challengePeriodNotEnded
  | notAttester
  | notValidated
  | noBond
deriving DecidableEq, Repr

/-- Registry storage. Attestations are keyed by their bytes32 id,
modelled as a `Hash`. -/
structure ARState where
  minBondAmount : Nat
  challengePeriod : Nat
  slashPercentage : Nat
  attestations : Hash → Attestation
  attesterValidCount : Nat → Nat
  attesterSlashCount : Nat → Nat
  challengerWinCount : Nat → Nat

/-- `challenge(attestationId, reason)` by `caller` at time `now`. -/
def challenge (s : ARState) (attestationId : Hash) (caller : Nat)
    (reason : Hash) (now : Nat) : Except ARError ARState :=
  let att := s.attestations attestationId
  if att.timestamp = 0 then .error .notFound
  else if att.status ≠ AttestationStatus.Pending then .error .notChallengeable
  else if now > att.challengeDeadline then .error .challengePeriodEnded
  else if caller = att.attester then .error .selfChallenge
  else
    let att' := { att with
                    status := AttestationStatus.Challenged
                    challenger := caller
                    challengeReason := reason }
    .ok { s with attestations := upd s.attestations attestationId att' }

/-- `arbitrate(attestationId, challengeSucceeded)`: from Challenged only;
on success the bond is split floor(bond * slashPercentage / 10000) to the
challenger and the remainder to the attester (zero transfers skipped) and
the slash and win counters increment; on failure the status becomes
Validated. Returns the executed transfers. -/
def arbitrate (s : ARState) (attestationId : Hash)
    (challengeSucceeded : Bool) :
    Except ARError (ARState × List (Nat × Nat)) :=
  let att := s.attestations attestationId
  if att.status ≠ AttestationStatus.Challenged then .error .notInChallenge
  else if challengeSucceeded then
    let slashAmount := att.bondAmount * s.slashPercentage / 10000
    let refundAmount := att.bondAmount - slashAmount
    let transfers :=
      (if slashAmount > 0 then [(att.challenger, slashAmount)] else []) ++
      (if refundAmount > 0 then [(att.attester, refundAmount)] else [])
    let att' := { att with status := AttestationStatus.Slashed }
    .ok ({ s with
            attestations := upd s.attestations attestationId att'
            attesterSlashCount := upd s.attesterSlashCount att.attester
              (s.attesterSlashCount att.attester + 1)
            challengerWinCount := upd s.challengerWinCount att.challenger
              (s.challengerWinCount att.challenger + 1) },
         transfers)
  else
    let att' := { att with status := AttestationStatus.Validated }
    .ok ({ s with
            attestations := upd s.attestations attestationId att'
            attesterValidCount := upd s.attesterValidCount att.attester
              (s.attesterValidCount att.attester + 1) },
         [])

/-- `validate(attestationId)` at time `now`: the timeout path. -/
def validate (s : ARState) (attestationId : Hash) (now : Nat) :
    Except ARError ARState :=
  let att := s.attestations attestationId
  if att.status ≠ AttestationStatus.Pending then .error .notPending
  else if !(now > att.challengeDeadline) then .error .challengePeriodNotEnded
  else
    let att' := { att with status := AttestationStatus.Validated }
    .ok { s with
            attestations := upd s.attestations attestationId att'
            attesterValidCount := upd s.attesterValidCount att.attester
              (s.attesterValidCount att.attester + 1) }

/-- `withdrawBond(attestationId)` by `caller`: attester only, from
Validated with a positive bond; zeroes the bond, moves to Withdrawn and
releases the full bond. Returns the executed transfer. -/
def withdrawBond (s : ARState) (attestationId : Hash) (caller : Nat) :
    Except ARError (ARState × List (Nat × Nat)) :=
  let att := s.attestations attestationId
  if caller ≠ att.attester then .error .notAttester
  else if att.status ≠ AttestationStatus.Validated then .error .notValidated
  else if att.bondAmount = 0 then .error .noBond
  else
    let att' := { att with
                    bondAmount := 0
                    status := AttestationStatus.Withdrawn }
    .ok ({ s with attestations := upd s.attestations attestationId att' },
         [(caller, att.bondAmount)])

/-- `submitAttestation(contentHash, bondAmount)` by `sender` at time
`now` in block `blockNumber`: the id is the keccak of the packed
(sender, contentHash, timestamp, blockNumber); collisions and empty
hashes are rejected, a positive bond must meet the minimum. -/
def submitAttestation (s : ARState) (sender : Nat) (contentHash : Hash)
    (bondAmount : Nat) (now blockNumber : Nat) :
    Except ARError (ARState × Hash) :=
  if contentHash = Hash.hZero then .error .invalidContentHash
  else
    let attestationId := Hash.hAttId sender contentHash now blockNumber
    if (s.attestations attestationId).timestamp ≠ 0 then
      .error .attestationExists
    else if bondAmount > 0 ∧ bondAmount < s.minBondAmount then
      .error .bondTooLow
    else
      let att' : Attestation :=
        ⟨sender, contentHash, bondAmount, now, now + s.challengePeriod,
         AttestationStatus.Pending, 0, Hash.hZero⟩
      .ok ({ s with attestations := upd s.attestations attestationId att' },
           attestationId)

end AttestationRegistry

/-- Concrete distributor state used to witness the claim theorems: one
root set for epoch 1, token 2, matching account 5 claiming amount 100
with the empty proof. -/
def c2WitnessState : MerkleDistributor.DistState :=
  { roots := upd (fun _ => Hash.hZero) (1, 2) (Hash.hPacked 5 100)
    claimed := fun _ => false
    totalClaimed := fun _ => 0 }

/-- Distributor state with no roots set and nothing claimed. -/
def emptyDistState : MerkleDistributor.DistState :=
  { roots := fun _ => Hash.hZero
    claimed := fun _ => false
    totalClaimed := fun _ => 0 }

/-- Specification-side eligibility of one batch entry
`(epochId, amount, proof)` against a fixed distributor state: not yet
claimed, root recorded, proof verifies (the three skip conditions of
`claimMultiple`, read off a single state). -/
def eligibleEntry (s : MerkleDistributor.DistState) (sender token : Nat)
    (entry : Nat × Nat × List Hash) : Bool :=
  !s.claimed (entry.1, token, sender) &&
  s.roots (entry.1, token) != Hash.hZero &&
  MerkleProof.verify entry.2.2 (s.roots (entry.1, token))
    (Hash.hPacked sender entry.2.1)

/-- Distributor state for the batch-claim witness: account 5, token 2;
epochs 1, 2 and 3 have roots equal to the leaves for amounts 100, 200
and 300, and epoch 2 is already claimed. -/
def c4WitnessState : MerkleDistributor.DistState :=
  { roots := upd (upd (upd (fun _ => Hash.hZero)
                 (1, 2) (Hash.hPacked 5 100))
               (2, 2) (Hash.hPacked 5 200))
             (3, 2) (Hash.hPacked 5 300)
    claimed := upd (fun _ => false) (2, 2, 5) true
    totalClaimed := fun _ => 0 }

/-- Epoch manager deployed at time 0 with epoch 1 finalized. -/
def emW1 : EpochManager.EMState :=
  match EpochManager.finalizeEpoch (EpochManager.initState 0) 1
      (Hash.hData 1 1) 5 with
  | .ok s => s
  | .error _ => EpochManager.initState 0

/-- `emW1` advanced to epoch 2 at the end of epoch 1. -/
def emW2 : EpochManager.EMState :=
  match EpochManager.advanceEpoch emW1 604800 with
  | .ok s => s
  | .error _ => emW1

/-- Total amount a transfer list pays to one recipient. -/
def paidTo (transfers : List (Nat × Nat)) (who : Nat) : Nat :=
  ((transfers.filter (fun t => t.1 == who)).map (fun t => t.2)).sum

/-- An attestation record with no challenger recorded, as created by
`submitAttestation` and carried through validation and withdrawal. -/
def attRec (sender : Nat) (contentHash : Hash) (B ts dl : Nat)
    (st : AttestationRegistry.AttestationStatus) :
    AttestationRegistry.Attestation :=
  ⟨sender, contentHash, B, ts, dl, st, 0, Hash.hZero⟩

/-- Attestation registry with an empty store:
min bond 10, challenge period 100, slash percentage 5000. -/
def arWitnessBase : AttestationRegistry.ARState :=
  { minBondAmount := 10
    challengePeriod := 100
    slashPercentage := 5000
    attestations := fun _ => AttestationRegistry.defaultAttestation
    attesterValidCount := fun _ => 0
    attesterSlashCount := fun _ => 0
    challengerWinCount := fun _ => 0 }

/-- `arWitnessBase` with one challenged attestation under id
`hData 7 7`: attester 1, bond 1000, challenger 2. -/
def arWitnessChallenged : AttestationRegistry.ARState :=
  { arWitnessBase with
      attestations := upd arWitnessBase.attestations (Hash.hData 7 7)
        ⟨1, Hash.hData 9 9, 1000, 50, 150,
         AttestationRegistry.AttestationStatus.Challenged, 2,
         Hash.hData 8 8⟩ }

/-- `arWitnessBase` with one validated attestation under id
`hData 7 7`: attester 1, bond 1000. -/
def arWitnessValidated : AttestationRegistry.ARState :=
  { arWitnessBase with
      attestations := upd arWitnessBase.attestations (Hash.hData 7 7)
        ⟨1, Hash.hData 9 9, 1000, 50, 150,
         AttestationRegistry.AttestationStatus.Validated, 0,
         Hash.hZero⟩ }

/-! ## Theorems -/

theorem upd_same {α β : Type} [DecidableEq α] (f : α → β) (a : α) (v : β) :
    upd f a v a = v := by simp [upd]

theorem upd_other {α β : Type} [DecidableEq α] (f : α → β) (a : α) (v : β)
    (x : α) (h : x ≠ a) : upd f a v x = f x := by simp [upd, h]

/-- C2: a claim succeeds at most once.  With a set root and a verifying
proof the first claim succeeds, marks `(epochId, token, account)`
claimed, and pays the amount; an identical second claim fails with
AlreadyClaimed and `canClaim` is false right after the success.  On any
state, an already-claimed key fails with AlreadyClaimed, a missing root
fails with RootNotSet, and a non-verifying proof fails with
InvalidProof. -/
theorem claim_at_most_once
    (s : MerkleDistributor.DistState) (sender epochId token amount : Nat)
    (proof : List Hash)
    (hnc : s.claimed (epochId, token, sender) = false)
    (hroot : s.roots (epochId, token) ≠ Hash.hZero)
    (hver : MerkleProof.verify proof (s.roots (epochId, token))
              (Hash.hPacked sender amount) = true) :
    (∃ s₁, MerkleDistributor.claim s sender epochId token amount proof
             = .ok (s₁, amount) ∧
       s₁.claimed (epochId, token, sender) = true ∧
       MerkleDistributor.claim s₁ sender epochId token amount proof
         = .error .alreadyClaimed ∧
       MerkleDistributor.canClaim s₁ epochId token sender amount proof
         = false) ∧
    (∀ s₂ : MerkleDistributor.DistState,
       s₂.claimed (epochId, token, sender) = true →
       MerkleDistributor.claim s₂ sender epochId token amount proof
         = .error .alreadyClaimed) ∧
    (∀ s₂ : MerkleDistributor.DistState,
       s₂.claimed (epochId, token, sender) = false →
       s₂.roots (epochId, token) = Hash.hZero →
       MerkleDistributor.claim s₂ sender epochId token amount proof
         = .error .rootNotSet) ∧
    (∀ (s₂ : MerkleDistributor.DistState) (proof₂ : List Hash),
       s₂.claimed (epochId, token, sender) = false →
       s₂.roots (epochId, token) ≠ Hash.hZero →
       MerkleProof.verify proof₂ (s₂.roots (epochId, token))
         (Hash.hPacked sender amount) = false →
       MerkleDistributor.claim s₂ sender epochId token amount proof₂
         = .error .invalidProof) := by
  refine ⟨?_, ?_, ?_, ?_⟩
  · refine ⟨{ s with
                claimed := upd s.claimed (epochId, token, sender) true
                totalClaimed := upd s.totalClaimed (sender, token)
                  (s.totalClaimed (sender, token) + amount) },
            ?_, ?_, ?_, ?_⟩
    · simp [MerkleDistributor.claim, hnc, hroot, hver]
    · exact upd_same _ _ _
    · simp [MerkleDistributor.claim, upd_same]
    · simp [MerkleDistributor.canClaim, upd_same]
  · intro s₂ h
    simp [MerkleDistributor.claim, h]
  · intro s₂ h hz
    simp [MerkleDistributor.claim, h, hz]
  · intro s₂ proof₂ h hz hv
    simp [MerkleDistributor.claim, h, hz, hv]

/-- Witness for C2 at a concrete state: epoch 1, token 2, account 5,
amount 100, empty proof against the root that is exactly the leaf. -/
theorem claim_at_most_once_witness :
    c2WitnessState.claimed (1, 2, 5) = false ∧
    c2WitnessState.roots (1, 2) ≠ Hash.hZero ∧
    MerkleProof.verify [] (c2WitnessState.roots (1, 2))
      (Hash.hPacked 5 100) = true ∧
    ∃ s₁, MerkleDistributor.claim c2WitnessState 5 1 2 100 []
            = .ok (s₁, 100) ∧
      MerkleDistributor.claim s₁ 5 1 2 100 [] = .error .alreadyClaimed ∧
      MerkleDistributor.canClaim s₁ 1 2 5 100 [] = false := by
  have h := claim_at_most_once c2WitnessState 5 1 2 100 []
    (by decide) (by decide) (by decide)
  obtain ⟨⟨s₁, h1, _, h3, h4⟩, _, _, _⟩ := h
  exact ⟨by decide, by decide, by decide, s₁, h1, h3, h4⟩

/-- C1, evaluated on the repository's own test fixture (the three mock
reward entries): `MerkleGenerator.verify` returns FALSE for every entry
on the proof produced for it by `MerkleGenerator.generate` - the claim's
`verify(root, address, amount, proofFor(address)) == true` fails.  The
cause is the leaf encoding: the tree is built by StandardMerkleTree over
double-hashed leaves `keccak256(keccak256(abi.encode(addr, amount)))`,
while `verify` recreates the leaf as a single
`keccak256(abi.encode(addr, amount))`.  The same proofs do reconstruct
the root once the leaf is double-hashed like the builder does (second
conjunct), and under that repaired leaf encoding changing the amount by
plus or minus 1 makes verification fail (third conjunct), so the proof
machinery itself is sound and the mismatch is exactly the leaf hash. -/
theorem generate_verify_leaf_mismatch :
    (MerkleGenerator.mockRewards.all (fun r =>
       MerkleGenerator.verify (MerkleGenerator.generate
           MerkleGenerator.mockRewards).root r.address r.amount
         ((MerkleGenerator.getProof (MerkleGenerator.generate
             MerkleGenerator.mockRewards) r.address).getD [])
         = false)) ∧
    (MerkleGenerator.mockRewards.all (fun r =>
       MerkleGenerator.verifyAgainstStandardLeaf (MerkleGenerator.generate
           MerkleGenerator.mockRewards).root r.address r.amount
         ((MerkleGenerator.getProof (MerkleGenerator.generate
             MerkleGenerator.mockRewards) r.address).getD [])
         = true)) ∧
    (MerkleGenerator.mockRewards.all (fun r =>
       (MerkleGenerator.verifyAgainstStandardLeaf (MerkleGenerator.generate
            MerkleGenerator.mockRewards).root r.address (r.amount + 1)
          ((MerkleGenerator.getProof (MerkleGenerator.generate
              MerkleGenerator.mockRewards) r.address).getD [])
          = false) ∧
       (MerkleGenerator.verifyAgainstStandardLeaf (MerkleGenerator.generate
            MerkleGenerator.mockRewards).root r.address (r.amount - 1)
          ((MerkleGenerator.getProof (MerkleGenerator.generate
              MerkleGenerator.mockRewards) r.address).getD [])
          = false))) := by
  refine ⟨?_, ?_, ?_⟩ <;> decide

/-- C10: `setMerkleRoot` fails exactly on the zero root; for the same
`(epochId, token)` a second non-zero root silently replaces the first,
and the claim flags and cumulative totals (in particular any claims
already made against the old root) are untouched. -/
theorem setMerkleRoot_replaces
    (s : MerkleDistributor.DistState) (epochId token : Nat) (r₁ r₂ : Hash)
    (h₁ : r₁ ≠ Hash.hZero) (h₂ : r₂ ≠ Hash.hZero) :
    (∀ r : Hash,
       (∃ e, MerkleDistributor.setMerkleRoot s epochId token r = .error e)
         ↔ r = Hash.hZero) ∧
    ∃ s₁ s₂, MerkleDistributor.setMerkleRoot s epochId token r₁ = .ok s₁ ∧
      s₁.roots (epochId, token) = r₁ ∧
      MerkleDistributor.setMerkleRoot s₁ epochId token r₂ = .ok s₂ ∧
      s₂.roots (epochId, token) = r₂ ∧
      s₂.claimed = s.claimed ∧
      s₂.totalClaimed = s.totalClaimed := by
  refine ⟨?_, ?_⟩
  · intro r
    constructor
    · rintro ⟨e, he⟩
      by_contra hr
      simp [MerkleDistributor.setMerkleRoot, hr] at he
    · intro hr
      exact ⟨.invalidRoot, by simp [MerkleDistributor.setMerkleRoot, hr]⟩
  · refine ⟨{ s with roots := upd s.roots (epochId, token) r₁ },
            { s with roots := upd (upd s.roots (epochId, token) r₁)
                               (epochId, token) r₂ },
            ?_, ?_, ?_, ?_, ?_, ?_⟩
    · simp [MerkleDistributor.setMerkleRoot, h₁]
    · exact upd_same _ _ _
    · simp [MerkleDistributor.setMerkleRoot, h₂]
    · exact upd_same _ _ _
    · rfl
    · rfl

/-- C3: `advanceEpoch` fails whenever the current epoch is not finalized,
for every clock value; `finalizeEpoch` on an already finalized epoch
fails for every root (in particular a different one), with
AlreadyFinalized whenever the epoch id is in range; it also rejects the
zero root and epoch ids beyond the current one. -/
theorem advance_requires_finalize
    (s : EpochManager.EMState) (epochId : Nat) :
    ((s.epochs s.currentEpochId).finalized = false →
       ∀ now, ∃ e, EpochManager.advanceEpoch s now = .error e) ∧
    ((s.epochs epochId).finalized = true →
       ∀ root tr, ∃ e,
         EpochManager.finalizeEpoch s epochId root tr = .error e) ∧
    (epochId ≤ s.currentEpochId → (s.epochs epochId).finalized = true →
       ∀ root tr, EpochManager.finalizeEpoch s epochId root tr
         = .error .alreadyFinalized) ∧
    (epochId ≤ s.currentEpochId → (s.epochs epochId).finalized = false →
       ∀ tr, EpochManager.finalizeEpoch s epochId Hash.hZero tr
         = .error .invalidRoot) ∧
    (epochId > s.currentEpochId →
       ∀ root tr, EpochManager.finalizeEpoch s epochId root tr
         = .error .invalidEpoch) := by
  refine ⟨?_, ?_, ?_, ?_, ?_⟩
  · intro hnf now
    unfold EpochManager.advanceEpoch
    by_cases hc : EpochManager.canAdvanceEpoch s now
    · exact ⟨.currentEpochNotFinalized, by simp [hc, hnf]⟩
    · exact ⟨.epochNotEnded, by simp [hc]⟩
  · intro hf root tr
    unfold EpochManager.finalizeEpoch
    by_cases hid : epochId > s.currentEpochId
    · exact ⟨.invalidEpoch, by simp [hid]⟩
    · exact ⟨.alreadyFinalized, by simp [hid, hf]⟩
  · intro hle hf root tr
    have hid : ¬ epochId > s.currentEpochId := by omega
    simp [EpochManager.finalizeEpoch, hid, hf]
  · intro hle hnf tr
    have hid : ¬ epochId > s.currentEpochId := by omega
    simp [EpochManager.finalizeEpoch, hid, hnf]
  · intro hid root tr
    simp [EpochManager.finalizeEpoch, hid]

/-- Witness for C3: at deployment (epoch 1 not finalized) advance fails
even far past the epoch end; after finalizing epoch 1 (state `emW1`) a
second finalize with a different root fails with AlreadyFinalized. -/
theorem advance_requires_finalize_witness :
    ((EpochManager.initState 0).epochs
       (EpochManager.initState 0).currentEpochId).finalized = false ∧
    (∃ e, EpochManager.advanceEpoch (EpochManager.initState 0) 999999999
            = .error e) ∧
    (emW1.epochs 1).finalized = true ∧
    EpochManager.finalizeEpoch emW1 1 (Hash.hData 2 2) 5
      = .error .alreadyFinalized := by
  have h1 := advance_requires_finalize (EpochManager.initState 0) 1
  have h2 := advance_requires_finalize emW1 1
  refine ⟨by rfl, h1.1 (by rfl) 999999999, by rfl, ?_⟩
  exact h2.2.2.1 (by decide) (by rfl) (Hash.hData 2 2) 5

/-- Inductive invariant of the epoch manager: every epoch strictly below
the current one is finalized, and every finalized epoch carries a
non-zero root. -/
theorem reachable_epoch_inv (s : EpochManager.EMState)
    (h : EpochManager.Reachable s) :
    (∀ i, 1 ≤ i → i < s.currentEpochId →
       (s.epochs i).finalized = true) ∧
    (∀ i, (s.epochs i).finalized = true →
       (s.epochs i).merkleRoot ≠ Hash.hZero) := by
  induction h with
  | init now =>
    constructor
    · intro i h1 h2
      simp [EpochManager.initState] at h2
      omega
    · intro i hf
      by_cases hi : i = 1 <;>
        simp [EpochManager.initState, upd, hi,
              EpochManager.defaultEpoch] at hf
  | step hr hstep ih =>
    rename_i t t'
    obtain ⟨ih1, ih2⟩ := ih
    cases hstep with
    | advance now x h =>
      unfold EpochManager.advanceEpoch at h
      by_cases hc : EpochManager.canAdvanceEpoch t now <;> simp [hc] at h
      by_cases hf : (t.epochs t.currentEpochId).finalized <;> simp [hf] at h
      subst h
      constructor
      · intro i h1 h2
        simp only at h2 ⊢
        have hne : i ≠ t.currentEpochId + 1 := by omega
        rw [upd_other _ _ _ _ hne]
        by_cases hic : i = t.currentEpochId
        · subst hic; exact hf
        · exact ih1 i h1 (by omega)
      · intro i hfi
        simp only at hfi ⊢
        by_cases hne : i = t.currentEpochId + 1
        · subst hne
          rw [upd_same] at hfi
          simp at hfi
        · rw [upd_other _ _ _ _ hne] at hfi ⊢
          exact ih2 i hfi
    | finalize epochId root tr x h =>
      unfold EpochManager.finalizeEpoch at h
      by_cases hid : epochId > t.currentEpochId <;> simp [hid] at h
      by_cases hf : (t.epochs epochId).finalized <;> simp [hf] at h
      by_cases hz : root = Hash.hZero <;> simp [hz] at h
      subst h
      constructor
      · intro i h1 h2
        simp only at h2 ⊢
        by_cases hie : i = epochId
        · subst hie; rw [upd_same]
        · rw [upd_other _ _ _ _ hie]
          exact ih1 i h1 h2
      · intro i hfi
        simp only at hfi ⊢
        by_cases hie : i = epochId
        · subst hie; rw [upd_same]; exact hz
        · rw [upd_other _ _ _ _ hie] at hfi ⊢
          exact ih2 i hfi
    | setDuration d x h =>
      unfold EpochManager.setEpochDuration at h
      by_cases h1 : d < EpochManager.minEpochDuration <;> simp [h1] at h
      by_cases h2 : d > EpochManager.maxEpochDuration <;> simp [h2] at h
      subst h
      exact ⟨ih1, ih2⟩

/-- C9: in every reachable epoch-manager state, every epoch with id
strictly below the current id is finalized and carries a non-zero merkle
root - a root exists for every past epoch. -/
theorem past_epochs_have_roots (s : EpochManager.EMState)
    (h : EpochManager.Reachable s) (i : Nat) (h1 : 1 ≤ i)
    (h2 : i < s.currentEpochId) :
    (s.epochs i).finalized = true ∧
    (s.epochs i).merkleRoot ≠ Hash.hZero := by
  obtain ⟨inv1, inv2⟩ := reachable_epoch_inv s h
  exact ⟨inv1 i h1 h2, inv2 i (inv1 i h1 h2)⟩

/-- Witness for C9: the state `emW2` (deploy at time 0, finalize epoch 1,
advance at its end) is reachable, its current epoch is 2, and epoch 1 is
finalized with the non-zero root that was committed. -/
theorem past_epochs_have_roots_witness :
    EpochManager.Reachable emW2 ∧ 1 < emW2.currentEpochId ∧
    (emW2.epochs 1).finalized = true ∧
    (emW2.epochs 1).merkleRoot ≠ Hash.hZero := by
  have hreach : EpochManager.Reachable emW2 :=
    EpochManager.Reachable.step
      (EpochManager.Reachable.step
        (EpochManager.Reachable.init 0)
        (EpochManager.Step.finalize (EpochManager.initState 0) 1
          (Hash.hData 1 1) 5 emW1 (by rfl)))
      (EpochManager.Step.advance emW1 604800 emW2 (by rfl))
  have hlt : 1 < emW2.currentEpochId := by decide
  obtain ⟨hf, hr⟩ := past_epochs_have_roots emW2 hreach 1 (by decide) hlt
  exact ⟨hreach, hlt, hf, hr⟩

/-- C6: arbitrating a challenged attestation as succeeded slashes it:
the challenger is paid exactly floor(B * p / 10000) of the bond B at
slash percentage p, the attester is paid the rest, the two payouts sum
to B, the status becomes Slashed, and the attester slash count and the
challenger win count both increment; with p = 5000 the challenger share
is floor(B / 2). -/
theorem arbitrate_slash_split
    (s : AttestationRegistry.ARState) (attestationId : Hash)
    (B p challengerA attesterA : Nat)
    (hB : (s.attestations attestationId).bondAmount = B)
    (hpv : s.slashPercentage = p)
    (hch : (s.attestations attestationId).challenger = challengerA)
    (hat : (s.attestations attestationId).attester = attesterA)
    (hst : (s.attestations attestationId).status =
       AttestationRegistry.AttestationStatus.Challenged)
    (hp : p ≤ 10000) :
    ∃ s' trs,
      AttestationRegistry.arbitrate s attestationId true = .ok (s', trs) ∧
      trs = (if 0 < B * p / 10000
             then [(challengerA, B * p / 10000)] else []) ++
            (if 0 < B - B * p / 10000
             then [(attesterA, B - B * p / 10000)] else []) ∧
      B * p / 10000 + (B - B * p / 10000) = B ∧
      (trs.map (fun x => x.2)).sum = B ∧
      (challengerA ≠ attesterA →
        paidTo trs challengerA = B * p / 10000 ∧
        paidTo trs attesterA = B - B * p / 10000) ∧
      (s'.attestations attestationId).status =
        AttestationRegistry.AttestationStatus.Slashed ∧
      s'.attesterSlashCount attesterA = s.attesterSlashCount attesterA + 1 ∧
      s'.challengerWinCount challengerA
        = s.challengerWinCount challengerA + 1 ∧
      (p = 5000 → B * p / 10000 = B / 2) := by
  have hsl : B * p / 10000 ≤ B := by
    have h1 : B * p ≤ B * 10000 := Nat.mul_le_mul_left _ hp
    have h2 : B * p / 10000 ≤ B * 10000 / 10000 := Nat.div_le_div_right h1
    have h3 : B * 10000 / 10000 = B := by omega
    omega
  subst hB; subst hpv; subst hch; subst hat
  unfold AttestationRegistry.arbitrate
  simp only [hst, ne_eq, not_true_eq_false, if_false, if_true, ite_true,
    ite_false, reduceCtorEq, not_false_eq_true]
  refine ⟨_, _, rfl, rfl, by omega, ?_, ?_, ?_, ?_, ?_, ?_⟩
  · by_cases h1 : 0 <
        (s.attestations attestationId).bondAmount *
          s.slashPercentage / 10000 <;>
      by_cases h2 : 0 <
          (s.attestations attestationId).bondAmount -
            (s.attestations attestationId).bondAmount *
              s.slashPercentage / 10000 <;>
      simp [h1, h2] <;> omega
  · intro hne
    constructor <;>
      (by_cases h1 : 0 <
          (s.attestations attestationId).bondAmount *
            s.slashPercentage / 10000 <;>
        by_cases h2 : 0 <
            (s.attestations attestationId).bondAmount -
              (s.attestations attestationId).bondAmount *
                s.slashPercentage / 10000 <;>
        simp [paidTo, h1, h2, hne, Ne.symm hne] <;> omega)
  · simp [upd_same]
  · simp [upd_same]
  · simp [upd_same]
  · intro hp5
    rw [hp5]
    omega

/-- Witness for C6: a challenged attestation with bond 1000 at slash
percentage 5000 pays the challenger 500 and the attester 500. -/
theorem arbitrate_slash_split_witness :
    (arWitnessChallenged.attestations (Hash.hData 7 7)).bondAmount
      = 1000 ∧
    arWitnessChallenged.slashPercentage = 5000 ∧
    (arWitnessChallenged.attestations (Hash.hData 7 7)).status =
      AttestationRegistry.AttestationStatus.Challenged ∧
    ∃ s', AttestationRegistry.arbitrate arWitnessChallenged
        (Hash.hData 7 7) true = .ok (s', [(2, 500), (1, 500)]) ∧
      (s'.attestations (Hash.hData 7 7)).status =
        AttestationRegistry.AttestationStatus.Slashed ∧
      s'.attesterSlashCount 1 = 1 ∧
      s'.challengerWinCount 2 = 1 := by
  have h := arbitrate_slash_split arWitnessChallenged (Hash.hData 7 7)
    1000 5000 2 1 (by rfl) (by rfl) (by rfl) (by rfl) (by rfl) (by decide)
  obtain ⟨s', trs, heq, htrs, _, _, _, hstat, hslash, hwin, _⟩ := h
  have htrs' : trs = [(2, 500), (1, 500)] := by rw [htrs]; rfl
  refine ⟨by rfl, by rfl, by rfl, s', ?_, hstat, ?_, ?_⟩
  · rw [htrs'] at heq; exact heq
  · simpa using hslash
  · simpa using hwin

/-- C7: an attestation submitted with bond B > 0 that passes its
challenge deadline unchallenged can be validated (Pending to Validated),
after which the original attester withdraws exactly B once: the bond is
zeroed and the status becomes Withdrawn, so a second withdrawal fails;
withdrawal by anyone else, or from any status other than Validated,
fails. -/
theorem validated_bond_withdrawal
    (s : AttestationRegistry.ARState) (sender : Nat) (contentHash : Hash)
    (B now bn : Nat) (attId : Hash)
    (hid : attId = Hash.hAttId sender contentHash now bn)
    (hch : contentHash ≠ Hash.hZero)
    (hB : 0 < B)
    (hmin : s.minBondAmount ≤ B)
    (hfresh : (s.attestations attId).timestamp = 0) :
    ∃ s₁, AttestationRegistry.submitAttestation s sender contentHash B
        now bn = .ok (s₁, attId) ∧
      (s₁.attestations attId).status =
        AttestationRegistry.AttestationStatus.Pending ∧
      (s₁.attestations attId).bondAmount = B ∧
      (s₁.attestations attId).attester = sender ∧
      (s₁.attestations attId).challengeDeadline
        = now + s.challengePeriod ∧
      (∀ now₂, now + s.challengePeriod < now₂ →
        ∃ s₂, AttestationRegistry.validate s₁ attId now₂ = .ok s₂ ∧
          (s₂.attestations attId).status =
            AttestationRegistry.AttestationStatus.Validated ∧
          ∃ s₃, AttestationRegistry.withdrawBond s₂ attId sender
              = .ok (s₃, [(sender, B)]) ∧
            (s₃.attestations attId).status =
              AttestationRegistry.AttestationStatus.Withdrawn ∧
            (s₃.attestations attId).bondAmount = 0 ∧
            (∃ e, AttestationRegistry.withdrawBond s₃ attId sender
                    = .error e) ∧
            (∀ other, other ≠ sender →
              ∃ e, AttestationRegistry.withdrawBond s₂ attId other
                     = .error e)) ∧
      (∀ (s' : AttestationRegistry.ARState) (someId : Hash)
          (caller : Nat),
        (s'.attestations someId).status ≠
          AttestationRegistry.AttestationStatus.Validated →
        ∃ e, AttestationRegistry.withdrawBond s' someId caller
               = .error e) := by
  subst hid
  have h3 : ¬(0 < B ∧ B < s.minBondAmount) := by omega
  have hsub : AttestationRegistry.submitAttestation s sender contentHash B
      now bn = .ok
        ({ s with
             attestations :=
               upd s.attestations (Hash.hAttId sender contentHash now bn)
                 (attRec sender contentHash B now
                   (now + s.challengePeriod)
                   AttestationRegistry.AttestationStatus.Pending) },
         Hash.hAttId sender contentHash now bn) := by
    unfold AttestationRegistry.submitAttestation
    simp [attRec, hch, hfresh, h3]
  refine ⟨_, hsub, by simp [upd_same, attRec], by simp [upd_same, attRec],
          by simp [upd_same, attRec], by simp [upd_same, attRec], ?_, ?_⟩
  · intro now₂ hnow
    have hval : AttestationRegistry.validate
        { s with
            attestations :=
              upd s.attestations (Hash.hAttId sender contentHash now bn)
                (attRec sender contentHash B now
                  (now + s.challengePeriod)
                  AttestationRegistry.AttestationStatus.Pending) }
        (Hash.hAttId sender contentHash now bn) now₂ = .ok
          { s with
              attestations :=
                upd
                  (upd s.attestations
                    (Hash.hAttId sender contentHash now bn)
                    (attRec sender contentHash B now
                      (now + s.challengePeriod)
                      AttestationRegistry.AttestationStatus.Pending))
                  (Hash.hAttId sender contentHash now bn)
                  (attRec sender contentHash B now
                    (now + s.challengePeriod)
                    AttestationRegistry.AttestationStatus.Validated)
              attesterValidCount :=
                upd s.attesterValidCount sender
                  (s.attesterValidCount sender + 1) } := by
      unfold AttestationRegistry.validate
      simp [attRec, upd_same, hnow]
    refine ⟨_, hval, by simp [upd_same, attRec], ?_⟩
    have hwd : AttestationRegistry.withdrawBond
        { s with
            attestations :=
              upd
                (upd s.attestations
                  (Hash.hAttId sender contentHash now bn)
                  (attRec sender contentHash B now
                    (now + s.challengePeriod)
                    AttestationRegistry.AttestationStatus.Pending))
                (Hash.hAttId sender contentHash now bn)
                (attRec sender contentHash B now
                  (now + s.challengePeriod)
                  AttestationRegistry.AttestationStatus.Validated)
            attesterValidCount :=
              upd s.attesterValidCount sender
                (s.attesterValidCount sender + 1) }
        (Hash.hAttId sender contentHash now bn) sender = .ok
          ({ s with
               attestations :=
                 upd
                   (upd
                     (upd s.attestations
                       (Hash.hAttId sender contentHash now bn)
                       (attRec sender contentHash B now
                         (now + s.challengePeriod)
                         AttestationRegistry.AttestationStatus.Pending))
                     (Hash.hAttId sender contentHash now bn)
                     (attRec sender contentHash B now
                       (now + s.challengePeriod)
                       AttestationRegistry.AttestationStatus.Validated))
                   (Hash.hAttId sender contentHash now bn)
                   (attRec sender contentHash 0 now
                     (now + s.challengePeriod)
                     AttestationRegistry.AttestationStatus.Withdrawn)
               attesterValidCount :=
                 upd s.attesterValidCount sender
                   (s.attesterValidCount sender + 1) },
           [(sender, B)]) := by
      unfold AttestationRegistry.withdrawBond
      simp [attRec, upd_same]
      omega
    refine ⟨_, hwd, by simp [upd_same, attRec], by simp [upd_same, attRec],
            ?_, ?_⟩
    · refine ⟨.notValidated, ?_⟩
      unfold AttestationRegistry.withdrawBond
      simp [attRec, upd_same]
    · intro other hother
      refine ⟨.notAttester, ?_⟩
      unfold AttestationRegistry.withdrawBond
      simp [attRec, upd_same, hother]
  · intro s' someId caller hstat
    unfold AttestationRegistry.withdrawBond
    by_cases hc : caller = (s'.attestations someId).attester
    · exact ⟨.notValidated, by simp [hc, hstat]⟩
    · exact ⟨.notAttester, by simp [hc]⟩

/-- Witness for C7: submit with bond 50 at time 5 (deadline 105),
validate at 106, withdraw exactly 50, second withdrawal fails. -/
theorem validated_bond_withdrawal_witness :
    (Hash.hData 9 9 ≠ Hash.hZero) ∧ 0 < 50 ∧
    arWitnessBase.minBondAmount ≤ 50 ∧
    (arWitnessBase.attestations
       (Hash.hAttId 1 (Hash.hData 9 9) 5 3)).timestamp = 0 ∧
    ∃ s₁ s₂ s₃,
      AttestationRegistry.submitAttestation arWitnessBase 1
          (Hash.hData 9 9) 50 5 3
        = .ok (s₁, Hash.hAttId 1 (Hash.hData 9 9) 5 3) ∧
      AttestationRegistry.validate s₁
          (Hash.hAttId 1 (Hash.hData 9 9) 5 3) 106 = .ok s₂ ∧
      AttestationRegistry.withdrawBond s₂
          (Hash.hAttId 1 (Hash.hData 9 9) 5 3) 1 = .ok (s₃, [(1, 50)]) ∧
      (s₃.attestations (Hash.hAttId 1 (Hash.hData 9 9) 5 3)).status =
        AttestationRegistry.AttestationStatus.Withdrawn ∧
      ∃ e, AttestationRegistry.withdrawBond s₃
             (Hash.hAttId 1 (Hash.hData 9 9) 5 3) 1 = .error e := by
  have h := validated_bond_withdrawal arWitnessBase 1 (Hash.hData 9 9)
    50 5 3 (Hash.hAttId 1 (Hash.hData 9 9) 5 3) rfl (by decide)
    (by decide) (by decide) (by rfl)
  obtain ⟨s₁, hsub, _, _, _, _, hrest, _⟩ := h
  obtain ⟨s₂, hval, _, s₃, hwd, hw1, _, hfail, _⟩ := hrest 106 (by decide)
  exact ⟨by decide, by decide, by decide, by rfl,
         s₁, s₂, s₃, hsub, hval, hwd, hw1, hfail⟩

/-- C8: the attestation status only moves along the allowed edges.  Each
operation succeeds only from its required source status (with its time
and caller side conditions) and lands on the listed target status;
from any other status the operation returns an error rather than
silently doing nothing (errors leave the state untouched in this pure
model, as reverts do on chain). -/
theorem attestation_lifecycle_edges
    (s : AttestationRegistry.ARState) (attestationId : Hash)
    (caller : Nat) (reason : Hash) (now : Nat) (b : Bool) :
    (∀ s', AttestationRegistry.challenge s attestationId caller reason now
        = .ok s' →
      (s.attestations attestationId).status =
        AttestationRegistry.AttestationStatus.Pending ∧
      now ≤ (s.attestations attestationId).challengeDeadline ∧
      caller ≠ (s.attestations attestationId).attester ∧
      (s'.attestations attestationId).status =
        AttestationRegistry.AttestationStatus.Challenged) ∧
    ((s.attestations attestationId).status ≠
        AttestationRegistry.AttestationStatus.Pending →
      ∃ e, AttestationRegistry.challenge s attestationId caller reason now
             = .error e) ∧
    (∀ s' trs, AttestationRegistry.arbitrate s attestationId b
        = .ok (s', trs) →
      (s.attestations attestationId).status =
        AttestationRegistry.AttestationStatus.Challenged ∧
      (s'.attestations attestationId).status =
        (if b then AttestationRegistry.AttestationStatus.Slashed
         else AttestationRegistry.AttestationStatus.Validated)) ∧
    ((s.attestations attestationId).status ≠
        AttestationRegistry.AttestationStatus.Challenged →
      ∃ e, AttestationRegistry.arbitrate s attestationId b = .error e) ∧
    (∀ s', AttestationRegistry.validate s attestationId now = .ok s' →
      (s.attestations attestationId).status =
        AttestationRegistry.AttestationStatus.Pending ∧
      (s.attestations attestationId).challengeDeadline < now ∧
      (s'.attestations attestationId).status =
        AttestationRegistry.AttestationStatus.Validated) ∧
    ((s.attestations attestationId).status ≠
        AttestationRegistry.AttestationStatus.Pending →
      ∃ e, AttestationRegistry.validate s attestationId now = .error e) ∧
    (∀ s' trs, AttestationRegistry.withdrawBond s attestationId caller
        = .ok (s', trs) →
      (s.attestations attestationId).status =
        AttestationRegistry.AttestationStatus.Validated ∧
      caller = (s.attestations attestationId).attester ∧
      (s'.attestations attestationId).status =
        AttestationRegistry.AttestationStatus.Withdrawn) ∧
    ((s.attestations attestationId).status ≠
        AttestationRegistry.AttestationStatus.Validated →
      ∃ e, AttestationRegistry.withdrawBond s attestationId caller
             = .error e) := by
  refine ⟨?_, ?_, ?_, ?_, ?_, ?_, ?_, ?_⟩
  · intro s' h
    unfold AttestationRegistry.challenge at h
    simp only [] at h
    split_ifs at h with h1 h2 h3 h4 <;> try simp at h
    subst h
    exact ⟨by simpa using h2, by omega, h4, by simp [upd_same]⟩
  · intro hstat
    unfold AttestationRegistry.challenge
    by_cases h1 : (s.attestations attestationId).timestamp = 0
    · exact ⟨.notFound, by simp [h1]⟩
    · exact ⟨.notChallengeable, by simp [h1, hstat]⟩
  · intro s' trs h
    unfold AttestationRegistry.arbitrate at h
    simp only [] at h
    split_ifs at h with h1 h2 <;> simp at h <;>
      (obtain ⟨hs, _⟩ := h
       subst hs
       exact ⟨by simpa using h1, by simp [h2, upd_same]⟩)
  · intro hstat
    exact ⟨.notInChallenge, by simp [AttestationRegistry.arbitrate, hstat]⟩
  · intro s' h
    unfold AttestationRegistry.validate at h
    simp only [] at h
    split_ifs at h with h1 h2 <;> try simp at h
    subst h
    refine ⟨by simpa using h1, by simpa using h2, by simp [upd_same]⟩
  · intro hstat
    exact ⟨.notPending, by simp [AttestationRegistry.validate, hstat]⟩
  · intro s' trs h
    unfold AttestationRegistry.withdrawBond at h
    simp only [] at h
    split_ifs at h with h1 h2 h3 <;> try simp at h
    obtain ⟨hs, _⟩ := h
    subst hs
    exact ⟨by simpa using h2, by simpa using h1, by simp [upd_same]⟩
  · intro hstat
    unfold AttestationRegistry.withdrawBond
    by_cases hc : caller = (s.attestations attestationId).attester
    · exact ⟨.notValidated, by simp [hc, hstat]⟩
    · exact ⟨.notAttester, by simp [hc]⟩

/-- Witness for C8 at concrete states: challenging or validating the
Validated attestation errors instead of no-opping, withdrawing from the
Challenged attestation errors, and arbitrating the Challenged
attestation lands on Slashed. -/
theorem attestation_lifecycle_edges_witness :
    (arWitnessValidated.attestations (Hash.hData 7 7)).status ≠
      AttestationRegistry.AttestationStatus.Pending ∧
    (∃ e, AttestationRegistry.challenge arWitnessValidated
            (Hash.hData 7 7) 2 (Hash.hData 8 8) 60 = .error e) ∧
    (∃ e, AttestationRegistry.validate arWitnessValidated
            (Hash.hData 7 7) 200 = .error e) ∧
    (arWitnessChallenged.attestations (Hash.hData 7 7)).status ≠
      AttestationRegistry.AttestationStatus.Validated ∧
    (∃ e, AttestationRegistry.withdrawBond arWitnessChallenged
            (Hash.hData 7 7) 1 = .error e) := by
  have hv := attestation_lifecycle_edges arWitnessValidated
    (Hash.hData 7 7) 2 (Hash.hData 8 8) 60 true
  have hc := attestation_lifecycle_edges arWitnessChallenged
    (Hash.hData 7 7) 1 (Hash.hData 8 8) 200 true
  refine ⟨by decide, hv.2.1 (by decide), ?_, by decide,
          hc.2.2.2.2.2.2.2 (by decide)⟩
  have hv200 := attestation_lifecycle_edges arWitnessValidated
    (Hash.hData 7 7) 2 (Hash.hData 8 8) 200 true
  exact hv200.2.2.2.2.2.1 (by decide)

theorem div_add_div_le (a b c : Nat) (hc : 0 < c) :
    a / c + b / c ≤ (a + b) / c := by
  rw [Nat.le_div_iff_mul_le hc, Nat.add_mul]
  exact Nat.add_le_add (Nat.div_mul_le_self a c) (Nat.div_mul_le_self b c)

/-- The sum of the floored shares is at most the floored share of the
summed ratios. -/
theorem floors_sum_le (total : Nat) (l : List Nat) :
    (l.map (fun r => total * r / 10000)).sum ≤ total * l.sum / 10000 := by
  induction l with
  | nil => simp
  | cons r rest ih =>
    simp only [List.map_cons, List.sum_cons]
    calc total * r / 10000 + (rest.map (fun r => total * r / 10000)).sum
        ≤ total * r / 10000 + total * rest.sum / 10000 :=
          Nat.add_le_add_left ih _
      _ ≤ (total * r + total * rest.sum) / 10000 :=
          div_add_div_le _ _ _ (by norm_num)
      _ = total * (r + rest.sum) / 10000 := by ring_nf

/-- Closed form of the split helper: floored shares for every ratio but
the last, and the remainder-absorbing last share. -/
theorem splitGo_closed (total : Nat) :
    ∀ (l : List Nat) (acc : Nat), l ≠ [] →
      splitGo total acc l
        = l.dropLast.map (fun r => total * r / 10000) ++
          [total - (acc +
            (l.dropLast.map (fun r => total * r / 10000)).sum)] := by
  intro l
  induction l with
  | nil => intro acc h; exact absurd rfl h
  | cons r rest ih =>
    intro acc _
    cases rest with
    | nil => simp [splitGo]
    | cons r2 rest2 =>
      have hne : r2 :: rest2 ≠ [] := by simp
      simp only [splitGo, ih _ hne, List.dropLast_cons₂, List.map_cons,
        List.sum_cons, List.cons_append]
      simp [Nat.add_assoc]

/-- C5: the spec's fixed-point splitter emits floor(total * ratio /
10000) for every ratio but the last, the last share absorbs the
remainder, and the shares sum to exactly the total, for every total
(zero and non-divisible included) and every non-empty basis-point ratio
list summing to 10000.  In the code, the treasury 40/30/20/10
distribution computes exactly these shares and its transfers sum to the
whole balance. -/
theorem split_exact (total : Nat) (ratios : List Nat)
    (hne : ratios ≠ []) (hsum : ratios.sum = 10000) :
    split total ratios
      = ratios.dropLast.map (fun r => total * r / 10000) ++
        [total -
          (ratios.dropLast.map (fun r => total * r / 10000)).sum] ∧
    (split total ratios).length = ratios.length ∧
    (split total ratios).sum = total ∧
    (∀ (st : XsrnTreasury.TreasuryState) (b : Nat), 0 < b →
      ∃ trs, XsrnTreasury.distributeRewards st b = .ok trs ∧
        (trs.map (fun t => t.2)).sum = b ∧
        split b [4000, 3000, 2000, 1000]
          = [b * 4000 / 10000, b * 3000 / 10000, b * 2000 / 10000,
             b - b * 4000 / 10000 - b * 3000 / 10000
               - b * 2000 / 10000]) := by
  have hclosed := splitGo_closed total ratios 0 hne
  have hdrop : ratios.dropLast.sum ≤ 10000 := by
    conv_rhs => rw [← hsum]
    conv_rhs => rw [← List.dropLast_append_getLast hne]
    rw [List.sum_append]
    simp
  have hbound :
      (ratios.dropLast.map (fun r => total * r / 10000)).sum ≤ total := by
    calc (ratios.dropLast.map (fun r => total * r / 10000)).sum
        ≤ total * ratios.dropLast.sum / 10000 := floors_sum_le _ _
      _ ≤ total * 10000 / 10000 :=
          Nat.div_le_div_right (Nat.mul_le_mul_left _ hdrop)
      _ = total := Nat.mul_div_cancel total (by norm_num)
  have hlen : 1 ≤ ratios.length := List.length_pos.mpr hne
  refine ⟨by simpa [split] using hclosed, ?_, ?_, ?_⟩
  · rw [split, hclosed]
    simp only [List.length_append, List.length_map, List.length_cons,
      List.length_nil, List.length_dropLast]
    omega
  · rw [split, hclosed]
    simp only [List.sum_append, List.sum_cons, List.sum_nil,
      Nat.zero_add, Nat.add_zero]
    omega
  · intro st b hb
    have hb0 : ¬ b = 0 := by omega
    refine ⟨XsrnTreasury.transferIfPositive st.watcher
              (b * 4000 / 10000) ++
            XsrnTreasury.transferIfPositive st.operator
              (b * 3000 / 10000) ++
            XsrnTreasury.transferIfPositive st.publicGoods
              (b * 2000 / 10000) ++
            XsrnTreasury.transferIfPositive st.securityReserve
              (b - b * 4000 / 10000 - b * 3000 / 10000
                 - b * 2000 / 10000),
            ?_, ?_, ?_⟩
    · simp [XsrnTreasury.distributeRewards, hb0]
    · have h4 : b * 4000 / 10000 ≤ b := by omega
      have h3 : b * 3000 / 10000 ≤ b := by omega
      have h2 : b * 2000 / 10000 ≤ b := by omega
      unfold XsrnTreasury.transferIfPositive
      split_ifs <;> simp <;> omega
    · have hs : split b [4000, 3000, 2000, 1000]
          = splitGo b 0 [4000, 3000, 2000, 1000] := rfl
      rw [hs]
      simp [splitGo]
      omega

/-- Witness for C5: splitting 7 by 40/30/20/10 gives [2, 2, 1, 2]
(summing to 7), and the treasury distribution of balance 7 transfers
amounts summing to 7. -/
theorem split_exact_witness :
    ([4000, 3000, 2000, 1000] : List Nat) ≠ [] ∧
    ([4000, 3000, 2000, 1000] : List Nat).sum = 10000 ∧
    (split 7 [4000, 3000, 2000, 1000]).sum = 7 ∧
    split 7 [4000, 3000, 2000, 1000] = [2, 2, 1, 2] ∧
    (0 : Nat) < 7 ∧
    ∃ trs, XsrnTreasury.distributeRewards ⟨1, 2, 3, 4⟩ 7 = .ok trs ∧
      (trs.map (fun t => t.2)).sum = 7 := by
  have h := split_exact 7 [4000, 3000, 2000, 1000] (by decide) (by decide)
  obtain ⟨_, _, hsum, hcode⟩ := h
  obtain ⟨trs, h1, h2, _⟩ := hcode ⟨1, 2, 3, 4⟩ 7 (by decide)
  exact ⟨by decide, by decide, hsum, by decide, by decide, trs, h1, h2⟩

/-- The `claimMultiple` loop, on a batch whose epoch ids are pairwise
distinct, pays out exactly the entries that are eligible against the
initial state and leaves the cumulative-claim totals untouched (the
lump-sum update happens after the loop). -/
theorem claimMultipleLoop_spec (sender token : Nat) :
    ∀ (entries : List (Nat × Nat × List Hash))
      (s : MerkleDistributor.DistState),
      (entries.map (fun e => e.1)).Nodup →
      (MerkleDistributor.claimMultipleLoop s sender token entries).2
        = ((entries.filter (eligibleEntry s sender token)).map
            (fun e => e.2.1)).sum ∧
      (MerkleDistributor.claimMultipleLoop s sender token
          entries).1.totalClaimed = s.totalClaimed := by
  intro entries
  induction entries with
  | nil =>
    intro s _
    simp [MerkleDistributor.claimMultipleLoop]
  | cons e rest ih =>
    intro s hnd
    obtain ⟨eid, amt, prf⟩ := e
    have hnd' : (rest.map (fun e => e.1)).Nodup :=
      (List.nodup_cons.mp hnd).2
    have hnotin : eid ∉ rest.map (fun e => e.1) :=
      (List.nodup_cons.mp hnd).1
    by_cases h1 : s.claimed (eid, token, sender)
    · have hel : eligibleEntry s sender token (eid, amt, prf) = false := by
        simp [eligibleEntry, h1]
      simp only [MerkleDistributor.claimMultipleLoop, h1, if_true,
        List.filter_cons, hel, Bool.false_eq_true, if_false]
      exact ih s hnd'
    · by_cases h2 : s.roots (eid, token) = Hash.hZero
      · have hel : eligibleEntry s sender token (eid, amt, prf)
            = false := by
          simp [eligibleEntry, h2]
        simp only [MerkleDistributor.claimMultipleLoop, h1, h2,
          if_false, if_true, List.filter_cons, hel, Bool.false_eq_true]
        exact ih s hnd'
      · by_cases h3 : MerkleProof.verify prf (s.roots (eid, token))
            (Hash.hPacked sender amt)
        · have hel : eligibleEntry s sender token (eid, amt, prf)
              = true := by
            simp [eligibleEntry, h1, h2, h3]
          have hcongr :
              rest.filter (eligibleEntry
                { s with claimed := upd s.claimed (eid, token, sender)
                           true } sender token)
                = rest.filter (eligibleEntry s sender token) := by
            apply List.filter_congr
            intro x hx
            have hxi : x.1 ≠ eid := by
              intro hc
              exact hnotin (hc ▸ List.mem_map_of_mem (fun e => e.1) hx)
            have hkey : (x.1, token, sender) ≠ (eid, token, sender) := by
              simp [hxi]
            simp [eligibleEntry, upd_other _ _ _ _ hkey]
          obtain ⟨ihs, iht⟩ := ih
            { s with claimed := upd s.claimed (eid, token, sender) true }
            hnd'
          simp only [MerkleDistributor.claimMultipleLoop, h1, h2, h3,
            if_false, if_true, Bool.not_true, List.filter_cons, hel,
            if_true, List.map_cons, List.sum_cons, Bool.false_eq_true]
          constructor
          · rw [ihs, hcongr]
          · exact iht
        · have hel : eligibleEntry s sender token (eid, amt, prf)
              = false := by
            simp [eligibleEntry, h3]
          simp only [MerkleDistributor.claimMultipleLoop, h1, h2, h3,
            if_false, if_true, Bool.not_false, List.filter_cons, hel,
            Bool.false_eq_true]
          exact ih s hnd'

/-- C4: a batch claim for one (token, account) with pairwise-distinct
epoch ids never aborts on ineligible entries: already-claimed, rootless
and badly-proved entries are skipped, exactly the sum of the eligible
entries is transferred (and added to the cumulative total) in one
payout, and a batch with zero eligible entries succeeds with payout 0;
moreover, for any equal-length batch whatsoever the call returns ok. -/
theorem claimMultiple_best_effort
    (s : MerkleDistributor.DistState) (sender token : Nat)
    (epochIds amounts : List Nat) (proofs : List (List Hash))
    (hlen1 : epochIds.length = amounts.length)
    (hlen2 : epochIds.length = proofs.length)
    (hnodup : epochIds.Nodup) :
    ∃ s' total,
      MerkleDistributor.claimMultiple s sender token epochIds amounts
        proofs = .ok (s', total) ∧
      total = (((epochIds.zip (amounts.zip proofs)).filter
                 (eligibleEntry s sender token)).map
                (fun e => e.2.1)).sum ∧
      s'.totalClaimed (sender, token)
        = s.totalClaimed (sender, token) + total ∧
      ((epochIds.zip (amounts.zip proofs)).filter
         (eligibleEntry s sender token) = [] → total = 0) ∧
      (∀ (es as : List Nat) (ps : List (List Hash)),
        es.length = as.length → es.length = ps.length →
        ∃ r, MerkleDistributor.claimMultiple s sender token es as ps
               = .ok r) := by
  have hmapfst : (epochIds.zip (amounts.zip proofs)).map (fun e => e.1)
      = epochIds := by
    have : epochIds.length ≤ (amounts.zip proofs).length := by
      rw [List.length_zip]
      omega
    exact List.map_fst_zip _ _ this
  have hnd : ((epochIds.zip (amounts.zip proofs)).map
      (fun e => e.1)).Nodup := by
    rw [hmapfst]; exact hnodup
  obtain ⟨hsum, htc⟩ := claimMultipleLoop_spec sender token
    (epochIds.zip (amounts.zip proofs)) s hnd
  have hnever : ∀ (es as : List Nat) (ps : List (List Hash)),
      es.length = as.length → es.length = ps.length →
      ∃ r, MerkleDistributor.claimMultiple s sender token es as ps
             = .ok r := by
    intro es as ps hl1 hl2
    have hl3 : as.length = ps.length := by omega
    unfold MerkleDistributor.claimMultiple
    simp only [hl1, hl2, hl3, ne_eq, not_true_eq_false, if_false,
      eq_self_iff_true, if_true]
    by_cases ht : (MerkleDistributor.claimMultipleLoop s sender token
        (es.zip (as.zip ps))).2 > 0
    · exact ⟨_, by rw [if_pos ht]⟩
    · exact ⟨_, by rw [if_neg ht]⟩
  have hlen3 : amounts.length = proofs.length := by omega
  unfold MerkleDistributor.claimMultiple
  simp only [hlen1, hlen2, hlen3, ne_eq, not_true_eq_false, if_false,
    eq_self_iff_true, if_true]
  by_cases ht : (MerkleDistributor.claimMultipleLoop s sender token
      (epochIds.zip (amounts.zip proofs))).2 > 0
  · refine ⟨_, _, by rw [if_pos ht], hsum, ?_, ?_, hnever⟩
    · simp only [upd_same, htc]
    · intro hemp
      rw [hsum, hemp]
      simp
  · refine ⟨_, _, by rw [if_neg ht], ?_, ?_, ?_, hnever⟩
    · omega
    · rw [htc]
      omega
    · intro _
      rfl

/-- Witness for C4, on the spec's own scenario: a 3-entry batch where
entry 2 was already claimed and entry 3 carries a bad proof (amount 301
against the committed 300) pays out exactly entry 1's 100 without any
error. -/
theorem claimMultiple_best_effort_witness :
    ([1, 2, 3] : List Nat).length = ([100, 200, 301] : List Nat).length ∧
    ([1, 2, 3] : List Nat).length
      = ([[], [], []] : List (List Hash)).length ∧
    ([1, 2, 3] : List Nat).Nodup ∧
    ∃ s', MerkleDistributor.claimMultiple c4WitnessState 5 2 [1, 2, 3]
        [100, 200, 301] [[], [], []] = .ok (s', 100) ∧
      s'.totalClaimed (5, 2) = 100 := by
  obtain ⟨s', total, heq, htot, htc, _, _⟩ :=
    claimMultiple_best_effort c4WitnessState 5 2 [1, 2, 3]
      [100, 200, 301] [[], [], []] (by decide) (by decide) (by decide)
  have h100 : total = 100 := by rw [htot]; decide
  subst h100
  exact ⟨by decide, by decide, by decide, s', heq, by simpa using htc⟩

/-- Witness for C10: replacing the root for epoch 1, token 2 twice in the
empty distributor state. -/
theorem setMerkleRoot_replaces_witness :
    (Hash.hData 1 1 ≠ Hash.hZero) ∧ (Hash.hData 2 2 ≠ Hash.hZero) ∧
    ∃ s₁ s₂,
      MerkleDistributor.setMerkleRoot emptyDistState 1 2 (Hash.hData 1 1)
        = .ok s₁ ∧
      MerkleDistributor.setMerkleRoot s₁ 1 2 (Hash.hData 2 2) = .ok s₂ ∧
      s₂.roots (1, 2) = Hash.hData 2 2 ∧
      s₂.claimed = emptyDistState.claimed := by
  have h := setMerkleRoot_replaces emptyDistState 1 2
    (Hash.hData 1 1) (Hash.hData 2 2) (by decide) (by decide)
  obtain ⟨_, s₁, s₂, h1, _, h3, h4, h5, _⟩ := h
  exact ⟨by decide, by decide, s₁, s₂, h1, h3, h4, h5⟩

end XSRN
